import Mathlib

/-!
Verification of the HotColdLotto enclave game engine (TypeScript reference
implementation) against its natural-language specification.

The enclave sources are shallowly embedded:
* `pricing.ts` — tier table, `determinePriceTier`, `computeBuyIn`,
  `shouldUpdatePrice`, `getMultiplier`;
* `game.ts` — `calculateDistance` (bulls/cows/numeric distance),
  `startNewRound`, `processGuess`;
* `audit.ts` — hash-chained audit log, Merkle root, chain verification;
* `crypto.ts` — the process-wide nonce counter and the signing calls.

TypeScript strings of 12 decimal digits are embedded as `List Nat` of their
digit values; `bigint` values are embedded as `Nat` (all game quantities are
non-negative wei amounts or distances).  `keccak256` is embedded as a
symbolic, collision-free hash: an inductive type whose constructors record
exactly the typed field tuples the code feeds to `solidityPackedKeccak256`,
so two hashes are equal iff their preimages are — the idealised-hash
assumption under which the audit-trail claims are stated.
-/

namespace HotCold

-- ─── pricing.ts ──────────────────────────────────────────────────────────────

inductive PriceTier where
  | base
  | warm
  | hot
  | scorching
deriving DecidableEq, BEq, Repr

/-- `TIER_ORDER` from pricing.ts: severity order Base < Warm < Hot < Scorching. -/
def TIER_ORDER : List PriceTier := [.base, .warm, .hot, .scorching]

/-- `tierIndex` from pricing.ts (`TIER_ORDER.indexOf(tier)`). -/
def tierIndex (tier : PriceTier) : Nat := TIER_ORDER.indexOf tier

structure TierDef where
  tier : PriceTier
  maxDistance : Nat
  multiplier : Nat
deriving DecidableEq, Repr

structure PricingConfig where
  baseBuyIn : Nat
  tiers : List TierDef
deriving DecidableEq, Repr

/-- `DEFAULT_PRICING_CONFIG` from types.ts: base 0.01 ETH, tiers
Base ≤ 999999999999 ×1, Warm ≤ 1000 ×2, Hot ≤ 100 ×5, Scorching ≤ 10 ×10. -/
def DEFAULT_PRICING_CONFIG : PricingConfig where
  baseBuyIn := 10000000000000000
  tiers := [⟨.base, 999999999999, 1⟩, ⟨.warm, 1000, 2⟩, ⟨.hot, 100, 5⟩,
            ⟨.scorching, 10, 10⟩]

/-- `determinePriceTier` from pricing.ts: sort tiers ascending by
`maxDistance` and return the first tier whose `maxDistance` bounds the
distance; default to Base.  The TS comparator sort is stable; a stable
ascending sort is extensionally unique, embedded here as insertion sort. -/
def determinePriceTier (numericDistance : Nat)
    (config : PricingConfig := DEFAULT_PRICING_CONFIG) : PriceTier :=
  let sorted := config.tiers.insertionSort (fun a b => a.maxDistance ≤ b.maxDistance)
  match sorted.find? (fun t => numericDistance ≤ t.maxDistance) with
  | some t => t.tier
  | none => .base

/-- `computeBuyIn` from pricing.ts: `config.baseBuyIn * tierDef.multiplier`.
The TS code indexes the tier definition with a non-null assertion (`!`);
a missing tier is embedded as multiplier 0 (never reached for the default
config). -/
def computeBuyIn (numericDistance : Nat)
    (config : PricingConfig := DEFAULT_PRICING_CONFIG) : Nat :=
  let tier := determinePriceTier numericDistance config
  config.baseBuyIn *
    (((config.tiers.find? (fun t => t.tier == tier)).map TierDef.multiplier).getD 0)

/-- `shouldUpdatePrice` from pricing.ts: escalate iff the new tier's severity
index strictly exceeds the current one. -/
def shouldUpdatePrice (currentTier : PriceTier) (newDistance : Nat)
    (config : PricingConfig := DEFAULT_PRICING_CONFIG) : Bool :=
  tierIndex (determinePriceTier newDistance config) > tierIndex currentTier

/-- `getMultiplier` from pricing.ts (`?? 1` default). -/
def getMultiplier (tier : PriceTier)
    (config : PricingConfig := DEFAULT_PRICING_CONFIG) : Nat :=
  ((config.tiers.find? (fun t => t.tier == tier)).map TierDef.multiplier).getD 1

-- ─── game.ts: calculateDistance ──────────────────────────────────────────────

structure HintResult where
  digitsInPlace : Nat
  digitsCorrect : Nat
  numericDistance : Nat
  isExactMatch : Bool
  priceTier : PriceTier
deriving DecidableEq, Repr

/-- The `targetRemaining` array after the bulls pass: positions with an exact
match are nulled, the rest keep the target digit. -/
def targetRemaining (target guess : List Nat) : List (Option Nat) :=
  List.zipWith (fun t g => if t = g then none else some t) target guess

/-- The `guessRemaining` array after the bulls pass. -/
def guessRemaining (target guess : List Nat) : List (Option Nat) :=
  List.zipWith (fun t g => if t = g then none else some g) target guess

/-- The bulls count: positions where target and guess agree. -/
def bullsCount (target guess : List Nat) : Nat :=
  (List.zip target guess).countP (fun p => p.1 = p.2)

/-- `targetRemaining.indexOf(d)` followed by nulling that slot: returns the
updated array, or `none` when the digit does not occur (TS `indexOf = -1`). -/
def removeFirst (ts : List (Option Nat)) (g : Nat) : Option (List (Option Nat)) :=
  match ts with
  | [] => none
  | t :: rest =>
    if t = some g then some (none :: rest)
    else (removeFirst rest g).map (t :: ·)

/-- The cows pass of `calculateDistance`: scan the guess remainder left to
right; each surviving digit consumes the first equal digit still available
in the target remainder. -/
def cowsLoop (ts : List (Option Nat)) : List (Option Nat) → Nat
  | [] => 0
  | none :: gs => cowsLoop ts gs
  | some g :: gs =>
    match removeFirst ts g with
    | some ts' => cowsLoop ts' gs + 1
    | none => cowsLoop ts gs

/-- `BigInt(...)` on a fixed-width decimal numeral: base-10 value of the
digit list. -/
def digitsToNat (l : List Nat) : Nat := l.foldl (fun acc d => 10 * acc + d) 0

/-- `calculateDistance` from game.ts.  The TS function throws unless both
arguments are 12 digits long; the embedding returns `none` there. -/
def calculateDistance (target guess : List Nat)
    (config : PricingConfig := DEFAULT_PRICING_CONFIG) : Option HintResult :=
  if target.length = 12 ∧ guess.length = 12 then
    let digitsInPlace := bullsCount target guess
    let digitsCorrect := cowsLoop (targetRemaining target guess)
      (guessRemaining target guess)
    let tv := digitsToNat target
    let gv := digitsToNat guess
    let numericDistance := if tv > gv then tv - gv else gv - tv
    some { digitsInPlace := digitsInPlace
           digitsCorrect := digitsCorrect
           numericDistance := numericDistance
           isExactMatch := digitsInPlace = 12
           priceTier := determinePriceTier numericDistance config }
  else
    none

-- ─── audit.ts ────────────────────────────────────────────────────────────────

inductive AuditEntryType where
  | roundStart
  | guess
  | hint
  | priceChange
  | winner
deriving DecidableEq, Repr

/-- `computeCommitment` from crypto.ts,
`keccak256(target, roundId, salt)` as a symbolic hash. -/
inductive CommitVal where
  | commit (target : List Nat) (roundId : String) (salt : String)
deriving DecidableEq, Repr

/-- The JSON payloads the engine passes to `addAuditEntry`, one constructor
per call site; embeds the `JSON.stringify` text (distinct payloads serialize
to distinct strings). -/
inductive AuditData where
  | roundStartD (commitmentHash : CommitVal) (baseBuyIn : Nat)
  | guessD (player : String) (guessHash : List Nat) (buyInPaid : Nat)
  | hintD (player : String) (digitsInPlace digitsCorrect numericDistance : Nat)
  | priceChangeD (newTier : PriceTier) (newBuyIn : Nat)
  | winnerD (winner : String)
deriving DecidableEq, Repr

/-- 32-byte hash values: the zero sentinel, entry hashes
`keccak256(index, type, roundId, data, timestamp, previousHash)`, and Merkle
node hashes `keccak256(left, right)` — embedded as a symbolic collision-free
hash, so equal hashes have equal preimages. -/
inductive HashVal where
  | zeroHash
  | entryH (index : Nat) (type : AuditEntryType) (roundId : String)
      (data : AuditData) (timestamp : Nat) (prev : HashVal)
  | nodeH (left right : HashVal)
deriving DecidableEq, Repr

structure AuditEntry where
  index : Nat
  type : AuditEntryType
  roundId : String
  data : AuditData
  timestamp : Nat
  previousHash : HashVal
  hash : HashVal
deriving DecidableEq, Repr

structure AuditTrail where
  roundId : String
  entries : List AuditEntry
  merkleRoot : Option HashVal
deriving DecidableEq, Repr

def emptyTrail (roundId : String) : AuditTrail := ⟨roundId, [], none⟩

/-- The hash recomputed from an entry's own stored fields, as in
`verifyChainIntegrity`. -/
def recomputeHash (e : AuditEntry) : HashVal :=
  .entryH e.index e.type e.roundId e.data e.timestamp e.previousHash

/-- `addAuditEntry` from audit.ts: next sequential index, previous entry's
hash (zero sentinel when first), entry hash over all other fields; appends
and invalidates the cached Merkle root. -/
def addAuditEntry (trail : AuditTrail) (type : AuditEntryType)
    (data : AuditData) (now : Nat) : AuditTrail × AuditEntry :=
  let index := trail.entries.length
  let previousHash :=
    match trail.entries.getLast? with
    | some prev => prev.hash
    | none => HashVal.zeroHash
  let entry : AuditEntry :=
    ⟨index, type, trail.roundId, data, now, previousHash,
      .entryH index type trail.roundId data now previousHash⟩
  ({ trail with entries := trail.entries ++ [entry], merkleRoot := none }, entry)

/-- The loop body of `verifyChainIntegrity`: `prev` is the expected
`previousHash` of the next entry. -/
def verifyFrom (prev : HashVal) : List AuditEntry → Bool
  | [] => true
  | e :: rest =>
    decide (e.previousHash = prev) && decide (e.hash = recomputeHash e) &&
      verifyFrom e.hash rest

/-- `verifyChainIntegrity` from audit.ts. -/
def verifyChainIntegrity (trail : AuditTrail) : Bool :=
  verifyFrom .zeroHash trail.entries

/-- One level of the Merkle reduction: pair leaves left to right,
`H(left, right)`, with a zero-sentinel right sibling for an odd tail. -/
def merklePass : List HashVal → List HashVal
  | [] => []
  | [l] => [.nodeH l .zeroHash]
  | l :: r :: rest => .nodeH l r :: merklePass rest

/-- The `while (leaves.length > 1)` reduction loop of `computeMerkleRoot`,
with explicit fuel (the loop at least halves the length each iteration, so
any fuel ≥ the initial length reaches the fixpoint). -/
def reduceLoop : Nat → List HashVal → List HashVal
  | 0, leaves => leaves
  | fuel + 1, leaves =>
    if 1 < leaves.length then reduceLoop fuel (merklePass leaves) else leaves

/-- The padding loop of `computeMerkleRoot`: push zero-sentinel leaves while
the length is > 1 and not a power of two (the TS test
`(leaves.length & (leaves.length - 1)) !== 0`), with explicit fuel (the next
power of two is below twice the length, so fuel = the initial length
suffices). -/
def padLoop : Nat → List HashVal → List HashVal
  | 0, leaves => leaves
  | fuel + 1, leaves =>
    if 1 < leaves.length ∧ leaves.length &&& (leaves.length - 1) ≠ 0 then
      padLoop fuel (leaves ++ [.zeroHash])
    else leaves

/-- `computeMerkleRoot` from audit.ts (the root value it returns). -/
def computeMerkleRoot (trail : AuditTrail) : HashVal :=
  if trail.entries.isEmpty then .zeroHash
  else
    let leaves := padLoop trail.entries.length (trail.entries.map AuditEntry.hash)
    (reduceLoop leaves.length leaves).headD .zeroHash

/-- `computeMerkleRoot` including its write to the cached `trail.merkleRoot`
(the TS function mutates the stored trail before returning). -/
def computeMerkleRootSt (trail : AuditTrail) : AuditTrail × HashVal :=
  if trail.entries.isEmpty then (trail, .zeroHash)
  else
    let root := computeMerkleRoot trail
    ({ trail with merkleRoot := some root }, root)

/-- A trail built solely through `addAuditEntry`, starting from the empty
trail: one (type, data, timestamp) triple per append. -/
def buildTrail (roundId : String)
    (ops : List (AuditEntryType × AuditData × Nat)) : AuditTrail :=
  ops.foldl (fun t op => (addAuditEntry t op.1 op.2.1 op.2.2).1)
    (emptyTrail roundId)

/-- Modelled from the spec's words: the next power of two above (or at) `n`,
via the ceiling base-2 logarithm. -/
def nextPow2 (n : Nat) : Nat := 2 ^ Nat.clog 2 n

/-- Modelled from the spec's words: pad the ordered leaf hashes with the
zero sentinel up to the next power of two and reduce pairwise bottom-up;
zero sentinel when there are no entries. -/
def merkleRootSpec (leaves : List HashVal) : HashVal :=
  if leaves.isEmpty then .zeroHash
  else
    (reduceLoop
      (leaves ++ List.replicate (nextPow2 leaves.length - leaves.length)
        HashVal.zeroHash).length
      (leaves ++ List.replicate (nextPow2 leaves.length - leaves.length)
        HashVal.zeroHash)).headD .zeroHash

-- ─── game.ts / crypto.ts: round lifecycle, nonces ───────────────────────────

inductive RoundStatus where
  | active
  | completed
deriving DecidableEq, Repr

structure GuessRecord where
  player : String
  guess : List Nat
  hint : HintResult
  buyInPaid : Nat
  timestamp : Nat
deriving DecidableEq, Repr

structure RoundState where
  id : String
  target : List Nat
  salt : String
  commitmentHash : CommitVal
  baseBuyIn : Nat
  currentBuyIn : Nat
  currentTier : PriceTier
  pool : Nat
  guesses : List GuessRecord
  status : RoundStatus
  winner : Option String
  startTimestamp : Nat
  endTimestamp : Option Nat
deriving DecidableEq, Repr

/-- ECDSA signatures from crypto.ts, embedded symbolically: one constructor
per signing function, recording the signed field tuple. -/
inductive Sig where
  | startSig (roundId : String) (commitmentHash : CommitVal) (baseBuyIn nonce : Nat)
  | hintSig (roundId player : String)
      (digitsCorrect digitsInPlace numericDistance nonce : Nat)
  | priceSig (roundId : String) (newBuyIn nonce : Nat)
  | winnerSig (roundId winner : String) (nonce : Nat)
deriving DecidableEq, Repr

structure SignedStartRound where
  roundId : String
  commitmentHash : CommitVal
  baseBuyIn : Nat
  nonce : Nat
  signature : Sig
deriving DecidableEq, Repr

structure SignedHint where
  roundId : String
  player : String
  digitsCorrect : Nat
  digitsInPlace : Nat
  numericDistance : Nat
  nonce : Nat
  signature : Sig
deriving DecidableEq, Repr

structure SignedPriceUpdate where
  roundId : String
  newBuyIn : Nat
  nonce : Nat
  signature : Sig
deriving DecidableEq, Repr

structure SignedWinnerDeclaration where
  roundId : String
  winner : String
  nonce : Nat
  signature : Sig
deriving DecidableEq, Repr

/-- The three guard errors of `processGuess` plus the length guard of
`calculateDistance` (all four are TS `throw`s). -/
inductive GameError where
  | roundNotFound
  | roundNotActive
  | insufficientBuyIn
  | invalidGuessFormat
deriving DecidableEq, Repr

structure ProcessResult where
  hint : HintResult
  signedHint : SignedHint
  priceUpdate : Option SignedPriceUpdate
  winnerDeclaration : Option SignedWinnerDeclaration
deriving DecidableEq, Repr

/-- The engine's module state: the `rounds` map and `activeRoundId` of
game.ts, the `trails` map of audit.ts, the `nonceCounter` of crypto.ts, and
a history variable `issuedNonces` recording every value `getNextNonce` has
returned, in order of issuance. -/
structure GameState where
  rounds : List (String × RoundState)
  activeRoundId : Option String
  trails : List (String × AuditTrail)
  nonceCounter : Nat
  issuedNonces : List Nat
deriving DecidableEq, Repr

def initState : GameState := ⟨[], none, [], 0, []⟩

/-- JavaScript `Map.set`: replace in place when the key exists, append
otherwise (insertion order preserved). -/
def setKey {α : Type} (m : List (String × α)) (k : String) (v : α) :
    List (String × α) :=
  if (m.lookup k).isSome then
    m.map (fun p => if p.1 = k then (k, v) else p)
  else m ++ [(k, v)]

/-- `getNextNonce` from crypto.ts: return `nonceCounter`, then increment it;
the issued value is also recorded in the history variable. -/
def getNextNonce (s : GameState) : Nat × GameState :=
  (s.nonceCounter,
   { s with nonceCounter := s.nonceCounter + 1,
            issuedNonces := s.issuedNonces ++ [s.nonceCounter] })

/-- `getOrCreateTrail` from audit.ts, read-only part. -/
def getTrail (s : GameState) (roundId : String) : AuditTrail :=
  (s.trails.lookup roundId).getD (emptyTrail roundId)

/-- `addAuditEntry(roundId, …)` acting on the engine state. -/
def addAudit (s : GameState) (roundId : String) (type : AuditEntryType)
    (data : AuditData) (now : Nat) : GameState :=
  { s with trails :=
      setKey s.trails roundId (addAuditEntry (getTrail s roundId) type data now).1 }

/-- `startNewRound` from game.ts.  `randomUUID`, `generateTarget` and
`Date.now` are environment inputs, passed as the `roundId`, `target`/`salt`
and `now` parameters. -/
def startNewRound (s : GameState) (roundId : String) (target : List Nat)
    (salt : String) (baseBuyIn : Nat) (now : Nat) :
    GameState × RoundState × SignedStartRound :=
  let commitmentHash := CommitVal.commit target roundId salt
  let round : RoundState :=
    { id := roundId, target := target, salt := salt
      commitmentHash := commitmentHash, baseBuyIn := baseBuyIn
      currentBuyIn := baseBuyIn, currentTier := .base, pool := 0
      guesses := [], status := .active, winner := none
      startTimestamp := now, endTimestamp := none }
  let s1 := { s with rounds := setKey s.rounds roundId round,
                     activeRoundId := some roundId }
  let p := getNextNonce s1
  let signedStart : SignedStartRound :=
    ⟨roundId, commitmentHash, baseBuyIn, p.1,
     .startSig roundId commitmentHash baseBuyIn p.1⟩
  let s3 := addAudit p.2 roundId .roundStart
    (.roundStartD commitmentHash baseBuyIn) now
  (s3, round, signedStart)

/-- `processGuess` from game.ts: guards, hint, guess record + pool update,
Guess/Hint audit entries, signed hint, conditional price escalation,
conditional winner declaration.  `Date.now` is the `now` parameter. -/
def processGuess (s : GameState) (roundId player : String) (guess : List Nat)
    (buyInPaid : Nat) (now : Nat) :
    GameState × Except GameError ProcessResult :=
  match s.rounds.lookup roundId with
  | none => (s, .error .roundNotFound)
  | some round =>
    if round.status ≠ .active then (s, .error .roundNotActive)
    else if buyInPaid < round.currentBuyIn then (s, .error .insufficientBuyIn)
    else
      match calculateDistance round.target guess with
      | none => (s, .error .invalidGuessFormat)
      | some hint =>
        let record : GuessRecord := ⟨player, guess, hint, buyInPaid, now⟩
        let round1 := { round with guesses := round.guesses ++ [record],
                                   pool := round.pool + buyInPaid }
        let s1 := { s with rounds := setKey s.rounds roundId round1 }
        let s2 := addAudit s1 roundId .guess (.guessD player guess buyInPaid) now
        let s3 := addAudit s2 roundId .hint
          (.hintD player hint.digitsInPlace hint.digitsCorrect
            hint.numericDistance) now
        let p4 := getNextNonce s3
        let signedHint : SignedHint :=
          ⟨roundId, player, hint.digitsCorrect, hint.digitsInPlace,
           hint.numericDistance, p4.1,
           .hintSig roundId player hint.digitsCorrect hint.digitsInPlace
             hint.numericDistance p4.1⟩
        let esc :=
          if shouldUpdatePrice round1.currentTier hint.numericDistance then
            let newTier := determinePriceTier hint.numericDistance
            let newBuyIn := computeBuyIn hint.numericDistance
            let round2 := { round1 with currentTier := newTier,
                                        currentBuyIn := newBuyIn }
            let s5 := { p4.2 with rounds := setKey p4.2.rounds roundId round2 }
            let p6 := getNextNonce s5
            let s6 := addAudit p6.2 roundId .priceChange
              (.priceChangeD newTier newBuyIn) now
            (s6, round2,
             some (⟨roundId, newBuyIn, p6.1,
                    .priceSig roundId newBuyIn p6.1⟩ : SignedPriceUpdate))
          else (p4.2, round1, none)
        let win :=
          if hint.isExactMatch then
            let round3 := { esc.2.1 with status := .completed,
                                         winner := some player,
                                         endTimestamp := some now }
            let s8 := { esc.1 with rounds := setKey esc.1.rounds roundId round3 }
            let p9 := getNextNonce s8
            let s9 := addAudit p9.2 roundId .winner (.winnerD player) now
            (s9, some (⟨roundId, player, p9.1,
                        .winnerSig roundId player p9.1⟩ :
                       SignedWinnerDeclaration))
          else (esc.1, none)
        (win.1, .ok ⟨hint, signedHint, esc.2.2, win.2⟩)

/-- One engine operation: a round start (with a fresh `randomUUID`) or a
guess (successful or failed). -/
inductive Step : GameState → GameState → Prop where
  | start (s : GameState) (roundId : String) (target : List Nat) (salt : String)
      (baseBuyIn now : Nat) (hfresh : s.rounds.lookup roundId = none) :
      Step s (startNewRound s roundId target salt baseBuyIn now).1
  | doGuess (s : GameState) (roundId player : String) (guess : List Nat)
      (buyInPaid now : Nat) :
      Step s (processGuess s roundId player guess buyInPaid now).1

/-- States reachable from the freshly initialized engine. -/
def Reachable (s : GameState) : Prop :=
  Relation.ReflTransGen Step initState s

-- ─── auxiliary definitions for the verification ─────────────────────────────

/-- The multiset of digits surviving in a remaining-array (ignoring the
nulled slots). -/
def dig (ts : List (Option Nat)) : Multiset Nat := (ts.filterMap id : List Nat)

/-- The expected `previousHash` for an entry appended after `l`, starting
from `prev`: the last entry's hash, or `prev` for an empty list (matches the
`getLast?` read in `addAuditEntry`). -/
def chainEnd (prev : HashVal) : List AuditEntry → HashVal
  | [] => prev
  | [e] => e.hash
  | _ :: f :: l => chainEnd prev (f :: l)

/-- The chain-integrity invariant: starting from expected previous hash
`prev`, each entry's `previousHash` equals the previous entry's hash (or
`prev` for the first) and each entry's `hash` is recomputable from its own
stored fields. -/
inductive Chained : HashVal → List AuditEntry → Prop where
  | nil (prev : HashVal) : Chained prev []
  | cons (prev : HashVal) (e : AuditEntry) (rest : List AuditEntry)
      (hprev : e.previousHash = prev) (hhash : e.hash = recomputeHash e)
      (hrest : Chained e.hash rest) : Chained prev (e :: rest)

/-- The number of zero leaves `padLoop` appends, as a function of the
starting length. -/
def padCount : Nat → Nat → Nat
  | 0, _ => 0
  | fuel + 1, n =>
    if 1 < n ∧ n &&& (n - 1) ≠ 0 then padCount fuel (n + 1) + 1 else 0

/-- A round started with a non-default base buy-in of 1 ETH (the POST
/round/start API accepts an arbitrary wei amount). -/
def escState : GameState :=
  (startNewRound initState "r1" (List.replicate 12 0) "es"
    1000000000000000000 0).1

/-- `escState` after a guess at numeric distance 500 (Warm tier) paying the
current 1 ETH buy-in. -/
def escState' : GameState :=
  (processGuess escState "r1" "player" [0, 0, 0, 0, 0, 0, 0, 0, 0, 5, 0, 0]
    1000000000000000000 1).1

/-- A round started with the default base buy-in. -/
def witStart : GameState :=
  (startNewRound initState "w1" (List.replicate 12 7) "ws"
    10000000000000000 0).1

/-- `witStart` after a winning guess (the guess equals the target). -/
def witDone : GameState :=
  (processGuess witStart "w1" "p1" (List.replicate 12 7)
    10000000000000000 1).1

/-- A concrete two-append audit trail. -/
def opsW : List (AuditEntryType × AuditData × Nat) :=
  [(.roundStart, .winnerD "a", 5), (.guess, .winnerD "b", 6)]

def trailW : AuditTrail := buildTrail "rw" opsW

/-- The first entry of `trailW`. -/
def e0W : AuditEntry :=
  ⟨0, .roundStart, "rw", .winnerD "a", 5, .zeroHash,
   .entryH 0 .roundStart "rw" (.winnerD "a") 5 .zeroHash⟩

/-- The second entry of `trailW`. -/
def e1W : AuditEntry :=
  ⟨1, .guess, "rw", .winnerD "b", 6, e0W.hash,
   .entryH 1 .guess "rw" (.winnerD "b") 6 e0W.hash⟩

-- ─── Scoring lemmas ──────────────────────────────────────────────────────────

lemma bullsCount_le (t g : List Nat) : bullsCount t g ≤ (t.zip g).length :=
  List.countP_le_length _

lemma bullsCount_comm (t g : List Nat) : bullsCount t g = bullsCount g t := by
  induction t generalizing g with
  | nil => cases g <;> simp [bullsCount]
  | cons a t ih =>
    cases g with
    | nil => simp [bullsCount]
    | cons b g =>
      simp only [bullsCount, List.zip_cons_cons, List.countP_cons] at *
      rw [ih g]
      congr 1
      simp [eq_comm]

lemma bullsCount_self (t : List Nat) : bullsCount t t = t.length := by
  induction t with
  | nil => simp [bullsCount]
  | cons a t ih =>
    simp only [bullsCount, List.zip_cons_cons, List.countP_cons] at *
    simp [ih]

lemma forall_zip_eq (t g : List Nat) (h : t.length = g.length) :
    (∀ p ∈ t.zip g, p.1 = p.2) ↔ t = g := by
  induction t generalizing g with
  | nil => cases g <;> simp_all
  | cons a t ih =>
    cases g with
    | nil => simp at h
    | cons b g =>
      simp only [List.length_cons] at h
      simp only [List.zip_cons_cons, List.mem_cons]
      constructor
      · intro hp
        have h1 := hp (a, b) (.inl rfl)
        have h2 := (ih g (by omega)).mp (fun p hp2 => hp p (.inr hp2))
        simp only at h1
        rw [h1, h2]
      · rintro heq p hp
        injection heq with h1 h2
        rcases hp with rfl | hp
        · simpa using h1
        · exact ((ih g (by omega)).mpr h2) p hp

lemma bullsCount_eq_iff (t g : List Nat) (h : t.length = g.length) :
    bullsCount t g = t.length ↔ t = g := by
  have hz : (t.zip g).length = t.length := by
    rw [List.length_zip, h, Nat.min_self]
  rw [bullsCount, ← hz, List.countP_eq_length]
  simp only [decide_eq_true_eq]
  exact forall_zip_eq t g h

lemma removeFirst_eq_none (ts : List (Option Nat)) (g : Nat) :
    removeFirst ts g = none ↔ ¬ some g ∈ ts := by
  induction ts with
  | nil => simp [removeFirst]
  | cons t ts ih =>
    by_cases hd : t = some g
    · subst hd; simp [removeFirst]
    · simp only [removeFirst, if_neg hd, Option.map_eq_none', ih, List.mem_cons]
      constructor
      · intro hn hc
        rcases hc with hc | hc
        · exact hd hc.symm
        · exact hn hc
      · intro hn hc
        exact hn (.inr hc)

lemma removeFirst_eq_some (ts : List (Option Nat)) (g : Nat)
    (ts' : List (Option Nat)) (h : removeFirst ts g = some ts') :
    g ∈ dig ts ∧ dig ts' = (dig ts).erase g := by
  induction ts generalizing ts' with
  | nil => simp [removeFirst] at h
  | cons t ts ih =>
    by_cases hd : t = some g
    · subst hd
      rw [show removeFirst (some g :: ts) g = some (none :: ts) by
        simp [removeFirst]] at h
      injection h with h
      subst h
      simp [dig, List.filterMap_cons]
    · simp only [removeFirst, if_neg hd, Option.map_eq_some'] at h
      obtain ⟨ts'', hts'', rfl⟩ := h
      obtain ⟨hmem, herase⟩ := ih ts'' hts''
      cases t with
      | none =>
        refine ⟨by simpa [dig, List.filterMap_cons] using hmem, ?_⟩
        simpa [dig, List.filterMap_cons] using herase
      | some d =>
        have hdg : d ≠ g := fun hc => hd (by rw [hc])
        refine ⟨?_, ?_⟩
        · simp only [dig, List.filterMap_cons, id_eq]
          rw [← Multiset.cons_coe]
          exact Multiset.mem_cons_of_mem hmem
        · simp only [dig, List.filterMap_cons, id_eq]
          rw [← Multiset.cons_coe, ← Multiset.cons_coe,
            Multiset.erase_cons_tail _ hdg]
          rw [show ((List.filterMap id ts'' : List Nat) : Multiset Nat)
            = dig ts'' from rfl, herase]
          rfl

lemma cowsLoop_eq (gs ts : List (Option Nat)) :
    cowsLoop ts gs = ((dig gs) ∩ (dig ts)).card := by
  induction gs generalizing ts with
  | nil => simp [cowsLoop, dig]
  | cons o gs ih =>
    cases o with
    | none => simp [cowsLoop, dig, List.filterMap_cons, ih]
    | some g =>
      rcases hrf : removeFirst ts g with _ | ts'
      · have hmem : ¬ some g ∈ ts := (removeFirst_eq_none ts g).mp hrf
        have hg : g ∉ dig ts := by
          simp only [dig, Multiset.mem_coe, List.mem_filterMap, id]
          rintro ⟨o, ho, rfl⟩
          exact hmem ho
        simp only [cowsLoop, hrf, ih]
        have : dig (some g :: gs) = g ::ₘ dig gs := by
          simp [dig, List.filterMap_cons, Multiset.cons_coe]
        rw [this, Multiset.cons_inter_of_neg _ hg]
      · obtain ⟨hmem, herase⟩ := removeFirst_eq_some ts g ts' hrf
        simp only [cowsLoop, hrf, ih ts']
        have : dig (some g :: gs) = g ::ₘ dig gs := by
          simp [dig, List.filterMap_cons, Multiset.cons_coe]
        rw [this, Multiset.cons_inter_of_pos _ hmem, Multiset.card_cons, herase]

lemma cowsLoop_le (ts gs : List (Option Nat)) :
    cowsLoop ts gs ≤ (dig gs).card := by
  rw [cowsLoop_eq]
  exact Multiset.card_le_card (Multiset.inter_le_left _ _)

lemma dig_card (ts : List (Option Nat)) :
    (dig ts).card = (ts.filterMap id).length := by
  simp [dig]

lemma dig_guessRemaining_card (t g : List Nat) :
    (dig (guessRemaining t g)).card + bullsCount t g = (t.zip g).length := by
  rw [dig_card]
  induction t generalizing g with
  | nil => cases g <;> simp [guessRemaining, bullsCount]
  | cons a t ih =>
    cases g with
    | nil => simp [guessRemaining, bullsCount]
    | cons b g =>
      have hih := ih g
      by_cases hab : a = b
      · subst hab
        simp [guessRemaining, bullsCount, List.filterMap_cons,
          List.countP_cons] at hih ⊢
        omega
      · simp [guessRemaining, bullsCount, List.filterMap_cons,
          List.countP_cons, hab] at hih ⊢
        omega

lemma guessRemaining_self (t : List Nat) :
    dig (guessRemaining t t) = 0 := by
  induction t with
  | nil => simp [dig, guessRemaining]
  | cons a t ih => simp [dig, guessRemaining, List.filterMap_cons, ih]

lemma targetRemaining_swap (t g : List Nat) :
    targetRemaining g t = guessRemaining t g := by
  induction t generalizing g with
  | nil => cases g <;> simp [targetRemaining, guessRemaining]
  | cons a t ih =>
    cases g with
    | nil => simp [targetRemaining, guessRemaining]
    | cons b g =>
      simp only [targetRemaining, guessRemaining, List.zipWith_cons_cons] at *
      rw [ih g]
      by_cases hab : a = b
      · simp [hab]
      · have hba : ¬b = a := fun hc => hab hc.symm
        simp [hab, hba]

lemma calculateDistance_eq (t g : List Nat) (ht : t.length = 12)
    (hg : g.length = 12) :
    calculateDistance t g = some
      { digitsInPlace := bullsCount t g
        digitsCorrect := cowsLoop (targetRemaining t g) (guessRemaining t g)
        numericDistance :=
          if digitsToNat t > digitsToNat g then digitsToNat t - digitsToNat g
          else digitsToNat g - digitsToNat t
        isExactMatch := decide (bullsCount t g = 12)
        priceTier := determinePriceTier
          (if digitsToNat t > digitsToNat g then digitsToNat t - digitsToNat g
           else digitsToNat g - digitsToNat t) DEFAULT_PRICING_CONFIG } := by
  simp [calculateDistance, ht, hg]

/-- C3: for every pair of 12-digit strings, the hint satisfies
`digitsInPlace + digitsCorrect ≤ 12`; `digitsInPlace = 12` (equivalently
`isExactMatch`) holds iff secret and guess are identical; and scoring a
string against itself yields 12 bulls and 0 cows. -/
theorem calculateDistance_bulls_cows (t g : List Nat) (ht : t.length = 12)
    (hg : g.length = 12) :
    ∃ h, calculateDistance t g = some h ∧
      h.digitsInPlace + h.digitsCorrect ≤ 12 ∧
      (h.digitsInPlace = 12 ↔ t = g) ∧
      (h.isExactMatch = true ↔ t = g) ∧
      (t = g → h.digitsInPlace = 12 ∧ h.digitsCorrect = 0) := by
  refine ⟨_, calculateDistance_eq t g ht hg, ?_, ?_, ?_, ?_⟩
  · have h1 := cowsLoop_le (targetRemaining t g) (guessRemaining t g)
    have h2 := dig_guessRemaining_card t g
    rw [List.length_zip, ht, hg] at h2
    simp only at *
    omega
  · have := bullsCount_eq_iff t g (ht.trans hg.symm)
    rw [ht] at this
    simpa using this
  · have := bullsCount_eq_iff t g (ht.trans hg.symm)
    rw [ht] at this
    simpa using this
  · rintro rfl
    constructor
    · simpa [bullsCount_self] using ht
    · simp only
      rw [cowsLoop_eq, guessRemaining_self]
      simp

-- ─── Numeric distance lemmas ────────────────────────────────────────────────

lemma digitsToNat_aux (l : List Nat) (a : Nat) :
    l.foldl (fun acc d => 10 * acc + d) a =
      a * 10 ^ l.length + l.foldl (fun acc d => 10 * acc + d) 0 := by
  induction l generalizing a with
  | nil => simp
  | cons d l ih =>
    simp only [List.foldl_cons, List.length_cons]
    rw [ih (10 * a + d), ih (10 * 0 + d)]
    ring

lemma digitsToNat_cons (d : Nat) (l : List Nat) :
    digitsToNat (d :: l) = d * 10 ^ l.length + digitsToNat l := by
  simp only [digitsToNat, List.foldl_cons, Nat.mul_zero, Nat.zero_add]
  exact digitsToNat_aux l d

lemma digitsToNat_lt (l : List Nat) (hd : ∀ d ∈ l, d < 10) :
    digitsToNat l < 10 ^ l.length := by
  induction l with
  | nil => simp [digitsToNat]
  | cons d l ih =>
    rw [digitsToNat_cons, List.length_cons, pow_succ]
    have h1 : d < 10 := hd d (List.mem_cons_self d l)
    have h2 : digitsToNat l < 10 ^ l.length :=
      ih (fun x hx => hd x (List.mem_cons_of_mem _ hx))
    nlinarith [pow_pos (show 0 < 10 by norm_num) l.length]

lemma digitsToNat_inj (t g : List Nat) (hl : t.length = g.length)
    (hdt : ∀ d ∈ t, d < 10) (hdg : ∀ d ∈ g, d < 10)
    (hv : digitsToNat t = digitsToNat g) : t = g := by
  induction t generalizing g with
  | nil => exact (List.length_eq_zero.mp hl.symm).symm
  | cons a t ih =>
    cases g with
    | nil => simp at hl
    | cons b g =>
      simp only [List.length_cons] at hl
      have hl' : t.length = g.length := by omega
      rw [digitsToNat_cons, digitsToNat_cons, hl'] at hv
      have hvt : digitsToNat t < 10 ^ g.length := by
        rw [← hl']
        exact digitsToNat_lt t (fun x hx => hdt x (List.mem_cons_of_mem _ hx))
      have hvg : digitsToNat g < 10 ^ g.length :=
        digitsToNat_lt g (fun x hx => hdg x (List.mem_cons_of_mem _ hx))
      have hab : a = b := by
        rcases Nat.lt_trichotomy a b with h | h | h
        · nlinarith
        · exact h
        · nlinarith
      subst hab
      have hveq : digitsToNat t = digitsToNat g := by omega
      rw [ih g hl' (fun x hx => hdt x (List.mem_cons_of_mem _ hx))
        (fun x hx => hdg x (List.mem_cons_of_mem _ hx)) hveq]

/-- C4: the hint's `numericDistance` is the exact absolute difference of the
two operands parsed as base-10 integers; it is symmetric, zero iff the
operands are equal, bounded by 999999999999, and that bound is attained at
("000000000000", "999999999999"). -/
theorem calculateDistance_numericDistance (t g : List Nat) (ht : t.length = 12)
    (hg : g.length = 12) (hdt : ∀ d ∈ t, d < 10) (hdg : ∀ d ∈ g, d < 10) :
    ∃ h h', calculateDistance t g = some h ∧ calculateDistance g t = some h' ∧
      (h.numericDistance : ℤ) =
        |(digitsToNat t : ℤ) - (digitsToNat g : ℤ)| ∧
      h'.numericDistance = h.numericDistance ∧
      (h.numericDistance = 0 ↔ t = g) ∧
      h.numericDistance ≤ 999999999999 ∧
      (calculateDistance (List.replicate 12 0) (List.replicate 12 9)).map
        HintResult.numericDistance = some 999999999999 := by
  have hb : (10 : Nat) ^ 12 = 1000000000000 := by norm_num
  have hvt : digitsToNat t < 1000000000000 := by
    have := digitsToNat_lt t hdt
    rwa [ht, hb] at this
  have hvg : digitsToNat g < 1000000000000 := by
    have := digitsToNat_lt g hdg
    rwa [hg, hb] at this
  refine ⟨_, _, calculateDistance_eq t g ht hg, calculateDistance_eq g t hg ht,
    ?_, ?_, ?_, ?_, ?_⟩
  · simp only
    by_cases h : digitsToNat t > digitsToNat g
    · rw [if_pos h, Nat.cast_sub h.le,
        abs_of_nonneg (sub_nonneg.mpr (by exact_mod_cast h.le))]
    · rw [if_neg h, Nat.cast_sub (by omega), abs_sub_comm,
        abs_of_nonneg (sub_nonneg.mpr (by exact_mod_cast (by omega : digitsToNat t ≤ digitsToNat g)))]
  · simp only
    split_ifs <;> omega
  · simp only
    constructor
    · intro h0
      have : digitsToNat t = digitsToNat g := by split_ifs at h0 <;> omega
      exact digitsToNat_inj t g (ht.trans hg.symm) hdt hdg this
    · rintro rfl
      simp
  · simp only
    split_ifs <;> omega
  · decide

/-- C10: swapping the two arguments of the scoring function leaves both the
bulls and the cows counts unchanged, despite the asymmetric first-available
cow matching. -/
theorem calculateDistance_symm (a b : List Nat) (ha : a.length = 12)
    (hb : b.length = 12) :
    ∃ h h', calculateDistance a b = some h ∧ calculateDistance b a = some h' ∧
      h'.digitsInPlace = h.digitsInPlace ∧ h'.digitsCorrect = h.digitsCorrect := by
  refine ⟨_, _, calculateDistance_eq a b ha hb, calculateDistance_eq b a hb ha,
    ?_, ?_⟩
  · simpa using bullsCount_comm b a
  · simp only
    rw [cowsLoop_eq, cowsLoop_eq, targetRemaining_swap b a,
      ← targetRemaining_swap a b, Multiset.inter_comm]

-- ─── Pricing escalation on a non-default round (C1, C2) ────────────────────

/-- C1: escalation sets `currentBuyIn` from the default config's
`baseBuyIn`, not the round's own.  For a round started with base 1 ETH, the
tier-Warm escalation writes 0.02 ETH (= default 0.01 ETH × 2), while the
round's own `baseBuyIn` times the Warm multiplier would be 2 ETH. -/
theorem processGuess_buyIn_ignores_round_base :
    (escState.rounds.lookup "r1").map
        (fun r => (r.baseBuyIn, r.currentBuyIn, r.currentTier)) =
      some (1000000000000000000, 1000000000000000000, .base) ∧
    (escState'.rounds.lookup "r1").map
        (fun r => (r.currentBuyIn, r.currentTier)) =
      some (20000000000000000, .warm) ∧
    1000000000000000000 * getMultiplier .warm DEFAULT_PRICING_CONFIG =
      2000000000000000000 ∧
    (20000000000000000 : Nat) ≠ 2000000000000000000 :=
  ⟨by decide, by decide, by decide, by decide⟩

/-- C2: on the same round, the escalating guess (distance 500, tier
Base → Warm) makes `currentBuyIn` drop from 1 ETH to 0.02 ETH, violating
monotonicity of the buy-in (the tier itself did escalate). -/
theorem processGuess_currentBuyIn_decreases :
    (∃ res, (processGuess escState "r1" "player"
        [0, 0, 0, 0, 0, 0, 0, 0, 0, 5, 0, 0] 1000000000000000000 1).2 =
      .ok res) ∧
    (escState.rounds.lookup "r1").map RoundState.currentBuyIn =
      some 1000000000000000000 ∧
    (escState'.rounds.lookup "r1").map RoundState.currentBuyIn =
      some 20000000000000000 ∧
    (escState.rounds.lookup "r1").map RoundState.currentTier = some .base ∧
    (escState'.rounds.lookup "r1").map RoundState.currentTier = some .warm ∧
    (20000000000000000 : Nat) < 1000000000000000000 :=
  ⟨⟨_, rfl⟩, by decide, by decide, by decide, by decide, by decide⟩

-- ─── Guard errors of processGuess (C5) ──────────────────────────────────────

/-- C5: `processGuess` fails with RoundNotFound on an unknown round id, with
RoundNotActive when the round is not Active, with InsufficientBuyIn when the
payment is below `currentBuyIn`; and every failure leaves the engine state
(rounds, pool, guesses, tiers, audit trails) unchanged. -/
theorem processGuess_guard_errors (s : GameState) (roundId player : String)
    (guess : List Nat) (buyInPaid now : Nat) :
    (s.rounds.lookup roundId = none →
      processGuess s roundId player guess buyInPaid now =
        (s, .error .roundNotFound)) ∧
    (∀ r, s.rounds.lookup roundId = some r → r.status ≠ .active →
      processGuess s roundId player guess buyInPaid now =
        (s, .error .roundNotActive)) ∧
    (∀ r, s.rounds.lookup roundId = some r → r.status = .active →
      buyInPaid < r.currentBuyIn →
      processGuess s roundId player guess buyInPaid now =
        (s, .error .insufficientBuyIn)) ∧
    (∀ e, (processGuess s roundId player guess buyInPaid now).2 = .error e →
      (processGuess s roundId player guess buyInPaid now).1 = s) := by
  refine ⟨?_, ?_, ?_, ?_⟩
  · intro h
    simp [processGuess, h]
  · intro r h hs
    simp [processGuess, h, hs]
  · intro r h hs hb
    simp [processGuess, h, hs, hb]
  · intro e he
    rcases hlook : s.rounds.lookup roundId with _ | r
    · simp [processGuess, hlook]
    · by_cases hs : r.status = .active
      · by_cases hb : buyInPaid < r.currentBuyIn
        · simp [processGuess, hlook, hs, hb]
        · rcases hcd : calculateDistance r.target guess with _ | hint
          · simp [processGuess, hlook, hs, hb, hcd]
          · exfalso
            simp [processGuess, hlook, hs, hb, hcd] at he
      · simp [processGuess, hlook, hs]

theorem processGuess_guard_errors_witness :
    processGuess initState "nope" "p" [] 0 0 =
      (initState, .error .roundNotFound) :=
  (processGuess_guard_errors initState "nope" "p" [] 0 0).1 rfl

-- ─── Audit chain lemmas (C7) ────────────────────────────────────────────────

lemma verifyFrom_iff (es : List AuditEntry) (prev : HashVal) :
    verifyFrom prev es = true ↔ Chained prev es := by
  induction es generalizing prev with
  | nil =>
    constructor
    · intro _
      exact .nil prev
    · intro _
      rfl
  | cons e es ih =>
    simp only [verifyFrom, Bool.and_eq_true, decide_eq_true_eq, ih]
    constructor
    · rintro ⟨⟨h1, h2⟩, h3⟩
      exact .cons _ e es h1 h2 h3
    · intro h
      cases h with
      | cons _ _ _ h1 h2 h3 => exact ⟨⟨h1, h2⟩, h3⟩

lemma chainEnd_nil (p : HashVal) : chainEnd p [] = p := rfl

lemma chainEnd_cons (p : HashVal) (e : AuditEntry) :
    ∀ l : List AuditEntry, chainEnd p (e :: l) = chainEnd e.hash l
  | [] => rfl
  | f :: l => by
    show chainEnd p (f :: l) = chainEnd e.hash (f :: l)
    rw [chainEnd_cons p f l, chainEnd_cons e.hash f l]

lemma chainEnd_eq_getLast (p : HashVal) :
    ∀ l : List AuditEntry,
      chainEnd p l = match l.getLast? with | some e => e.hash | none => p
  | [] => rfl
  | [_] => rfl
  | e :: f :: l => by
    rw [show chainEnd p (e :: f :: l) = chainEnd p (f :: l) from rfl,
      chainEnd_eq_getLast p (f :: l), List.getLast?_cons_cons]

lemma chained_suffix (l m : List AuditEntry) (p : HashVal)
    (h : Chained p (l ++ m)) : Chained (chainEnd p l) m := by
  induction l generalizing p with
  | nil => simpa [chainEnd_nil] using h
  | cons e l ih =>
    cases h with
    | cons _ _ _ h1 h2 h3 =>
      rw [chainEnd_cons]
      exact ih e.hash h3

lemma chained_snoc (l : List AuditEntry) (e : AuditEntry)
    (hhash : e.hash = recomputeHash e) :
    ∀ p, Chained p l → e.previousHash = chainEnd p l → Chained p (l ++ [e]) := by
  induction l with
  | nil =>
    intro p _ hprev
    rw [chainEnd_nil] at hprev
    exact .cons p e [] hprev hhash (.nil _)
  | cons f l ih =>
    intro p hl hprev
    cases hl with
    | cons _ _ _ h1 h2 h3 =>
      rw [chainEnd_cons] at hprev
      exact .cons p f (l ++ [e]) h1 h2 (ih f.hash h3 hprev)

lemma addAuditEntry_chained (t : AuditTrail) (ty : AuditEntryType)
    (d : AuditData) (now : Nat) (h : Chained .zeroHash t.entries) :
    Chained .zeroHash (addAuditEntry t ty d now).1.entries := by
  simp only [addAuditEntry]
  exact chained_snoc t.entries _ rfl .zeroHash h
    (chainEnd_eq_getLast .zeroHash t.entries).symm

lemma buildTrail_chained (roundId : String)
    (ops : List (AuditEntryType × AuditData × Nat)) :
    Chained .zeroHash (buildTrail roundId ops).entries := by
  suffices h : ∀ t, Chained .zeroHash t.entries →
      Chained .zeroHash
        ((ops.foldl (fun t op => (addAuditEntry t op.1 op.2.1 op.2.2).1) t).entries) by
    exact h (emptyTrail roundId) (.nil _)
  induction ops with
  | nil => intro t h; exact h
  | cons op ops ih =>
    intro t h
    exact ih _ (addAuditEntry_chained t op.1 op.2.1 op.2.2 h)

lemma chained_middle (p : HashVal) (l : List AuditEntry) (e : AuditEntry)
    (r : List AuditEntry) (h : Chained p (l ++ e :: r)) :
    e.previousHash = chainEnd p l ∧ e.hash = recomputeHash e := by
  have hs := chained_suffix l (e :: r) p h
  cases hs with
  | cons _ _ _ h1 h2 _ => exact ⟨h1, h2⟩

/-- C7: chain verification accepts every trail built solely through append
(the empty trail included): each entry's `previousHash` is the previous
entry's hash (zero sentinel first) and each hash is recomputable from the
entry's own stored fields (`Chained`); and altering any stored entry's
`hash`, `previousHash`, or payload after appending makes verification
return false. -/
theorem audit_chain_integrity (roundId : String)
    (ops : List (AuditEntryType × AuditData × Nat)) :
    verifyChainIntegrity (buildTrail roundId ops) = true ∧
    Chained .zeroHash (buildTrail roundId ops).entries ∧
    (∀ l e r, (buildTrail roundId ops).entries = l ++ e :: r →
      (∀ h', h' ≠ e.hash →
        verifyChainIntegrity { buildTrail roundId ops with
          entries := l ++ { e with hash := h' } :: r } = false) ∧
      (∀ p', p' ≠ e.previousHash →
        verifyChainIntegrity { buildTrail roundId ops with
          entries := l ++ { e with previousHash := p' } :: r } = false) ∧
      (∀ d', d' ≠ e.data →
        verifyChainIntegrity { buildTrail roundId ops with
          entries := l ++ { e with data := d' } :: r } = false)) := by
  have hch := buildTrail_chained roundId ops
  refine ⟨(verifyFrom_iff _ _).mpr hch, hch, ?_⟩
  intro l e r hsplit
  rw [hsplit] at hch
  obtain ⟨hp, hh⟩ := chained_middle _ _ _ _ hch
  refine ⟨?_, ?_, ?_⟩
  · intro h' hne
    have hnc : ¬ Chained .zeroHash (l ++ { e with hash := h' } :: r) := by
      intro hch'
      obtain ⟨_, hh'⟩ := chained_middle _ _ _ _ hch'
      simp only [recomputeHash] at hh' hh
      exact hne (hh'.trans hh.symm)
    exact Bool.eq_false_iff.mpr
      (fun hv => hnc ((verifyFrom_iff _ _).mp hv))
  · intro p' hne
    have hnc : ¬ Chained .zeroHash (l ++ { e with previousHash := p' } :: r) := by
      intro hch'
      obtain ⟨hp', _⟩ := chained_middle _ _ _ _ hch'
      exact hne (hp'.trans hp.symm)
    exact Bool.eq_false_iff.mpr
      (fun hv => hnc ((verifyFrom_iff _ _).mp hv))
  · intro d' hne
    have hnc : ¬ Chained .zeroHash (l ++ { e with data := d' } :: r) := by
      intro hch'
      obtain ⟨_, hh'⟩ := chained_middle _ _ _ _ hch'
      simp only [recomputeHash] at hh' hh
      rw [hh] at hh'
      injection hh' with _ _ _ hd _ _
      exact hne hd.symm
    exact Bool.eq_false_iff.mpr
      (fun hv => hnc ((verifyFrom_iff _ _).mp hv))

theorem audit_chain_integrity_witness :
    verifyChainIntegrity trailW = true ∧
    verifyChainIntegrity { trailW with
      entries := [] ++ { e0W with data := .winnerD "x" } :: [e1W] } = false :=
  ⟨(audit_chain_integrity "rw" opsW).1,
   ((audit_chain_integrity "rw" opsW).2.2 [] e0W [e1W] (by decide)).2.2
     (.winnerD "x") (by decide)⟩

-- ─── Merkle root lemmas (C8) ────────────────────────────────────────────────

lemma merklePass_length : ∀ l : List HashVal,
    (merklePass l).length = (l.length + 1) / 2
  | [] => rfl
  | [_] => by norm_num [merklePass]
  | x :: y :: r => by
    show (merklePass r).length + 1 = (r.length + 2 + 1) / 2
    rw [merklePass_length r]
    omega

lemma merklePass_inj : ∀ l l' : List HashVal, l.length = l'.length →
    merklePass l = merklePass l' → l = l'
  | [], [], _, _ => rfl
  | [], [_], hl, _ => by simp at hl
  | [], _ :: _ :: _, hl, _ => by simp at hl
  | [_], [], hl, _ => by simp at hl
  | [_], _ :: _ :: _, hl, _ => by
    simp only [List.length_cons, List.length_nil] at hl
    omega
  | _ :: _ :: _, [], hl, _ => by simp at hl
  | _ :: _ :: _, [_], hl, _ => by
    simp only [List.length_cons, List.length_nil] at hl
    omega
  | [x], [y], _, h => by
    injection h with h1 _
    injection h1 with hx _
    rw [hx]
  | x :: y :: r, x' :: y' :: r', hl, h => by
    injection h with h1 h2
    injection h1 with hx hy
    have hr : r = r' := merklePass_inj r r'
      (by simp only [List.length_cons] at hl; omega) h2
    rw [hx, hy, hr]

lemma reduceLoop_length : ∀ (fuel : Nat) (l : List HashVal),
    0 < l.length → l.length ≤ fuel → (reduceLoop fuel l).length = 1
  | 0, _, h0, hle => by omega
  | fuel + 1, l, h0, hle => by
    rw [reduceLoop]
    by_cases h : 1 < l.length
    · rw [if_pos h]
      exact reduceLoop_length fuel (merklePass l)
        (by rw [merklePass_length]; omega)
        (by rw [merklePass_length]; omega)
    · rw [if_neg h]
      omega

lemma reduceLoop_inj : ∀ (fuel : Nat) (l l' : List HashVal),
    l.length = l'.length → reduceLoop fuel l = reduceLoop fuel l' → l = l'
  | 0, _, _, _, h => by simpa [reduceLoop] using h
  | fuel + 1, l, l', hl, h => by
    rw [reduceLoop, reduceLoop] at h
    by_cases h1 : 1 < l.length
    · rw [if_pos h1, if_pos (hl ▸ h1)] at h
      have hpl : (merklePass l).length = (merklePass l').length := by
        rw [merklePass_length, merklePass_length, hl]
      exact merklePass_inj l l' hl (reduceLoop_inj fuel _ _ hpl h)
    · rw [if_neg h1, if_neg (show ¬ 1 < l'.length by omega)] at h
      exact h

lemma padLoop_eq : ∀ (fuel : Nat) (l : List HashVal),
    padLoop fuel l = l ++ List.replicate (padCount fuel l.length) .zeroHash
  | 0, l => by simp [padLoop, padCount]
  | fuel + 1, l => by
    rw [padLoop, padCount]
    by_cases h : 1 < l.length ∧ l.length &&& (l.length - 1) ≠ 0
    · rw [if_pos h, if_pos h, padLoop_eq fuel (l ++ [HashVal.zeroHash])]
      simp [List.length_append, List.append_assoc, List.singleton_append,
        ← List.replicate_succ]
    · rw [if_neg h, if_neg h]
      simp

lemma testBit_of_bounds {n k : Nat} (h1 : 2 ^ k ≤ n) (h2 : n < 2 ^ (k + 1)) :
    n.testBit k = true := by
  have h3 : n / 2 ^ k = 1 := by
    apply Nat.div_eq_of_lt_le (by simpa using h1)
    rw [show (1 + 1) * 2 ^ k = 2 ^ (k + 1) by rw [pow_succ]; ring]
    exact h2
  rw [Nat.testBit_to_div_mod, h3]
  rfl

lemma pow2_land_eq_zero {k : Nat} : (2 ^ k) &&& (2 ^ k - 1) = 0 := by
  rw [Nat.and_pow_two_sub_one_eq_mod, Nat.mod_self]

lemma land_pred_eq_zero_iff {n : Nat} (hn : 0 < n) :
    n &&& (n - 1) = 0 ↔ ∃ k, n = 2 ^ k := by
  constructor
  · intro h
    by_contra hnp
    push_neg at hnp
    have h1 : 2 ^ n.log2 ≤ n := Nat.log2_self_le (by omega)
    have h2 : n < 2 ^ (n.log2 + 1) := Nat.lt_log2_self
    have h3 : 2 ^ n.log2 < n :=
      lt_of_le_of_ne h1 (fun hc => hnp n.log2 hc.symm)
    have hb1 : n.testBit n.log2 = true := testBit_of_bounds h1 h2
    have hb2 : (n - 1).testBit n.log2 = true :=
      testBit_of_bounds (by omega) (by omega)
    have hb : (n &&& (n - 1)).testBit n.log2 = true := by
      rw [Nat.testBit_land, hb1, hb2]
      rfl
    rw [h, Nat.zero_testBit] at hb
    exact Bool.false_ne_true hb
  · rintro ⟨k, rfl⟩
    exact pow2_land_eq_zero

lemma le_nextPow2 (n : Nat) : n ≤ nextPow2 n :=
  Nat.le_pow_clog one_lt_two n

lemma nextPow2_le_of_pow2 {n m : Nat} (h : n ≤ m) (hp : ∃ k, m = 2 ^ k) :
    nextPow2 n ≤ m := by
  obtain ⟨k, rfl⟩ := hp
  rw [nextPow2]
  exact Nat.pow_le_pow_right (by norm_num)
    ((Nat.le_pow_iff_clog_le one_lt_two).mp h)

lemma nextPow2_le_two_mul {n : Nat} (hn : 1 < n) : nextPow2 n ≤ 2 * n := by
  have h1 : 2 ^ (Nat.clog 2 n - 1) < n := Nat.pow_pred_clog_lt_self one_lt_two hn
  have h2 : 0 < Nat.clog 2 n := Nat.clog_pos one_lt_two hn
  calc nextPow2 n = 2 ^ ((Nat.clog 2 n - 1) + 1) := by
        rw [nextPow2]
        congr 1
        omega
    _ = 2 * 2 ^ (Nat.clog 2 n - 1) := by rw [pow_succ]; ring
    _ ≤ 2 * n := by omega

lemma nextPow2_succ_of_not_pow2 {n : Nat} (_hn : 1 < n)
    (hnp : ¬ ∃ k, n = 2 ^ k) : nextPow2 (n + 1) = nextPow2 n := by
  have h1 : n ≤ nextPow2 n := le_nextPow2 n
  have hp2 : ∃ k, nextPow2 n = 2 ^ k := ⟨_, rfl⟩
  have h2 : n ≠ nextPow2 n := fun hc => hnp (hc ▸ hp2)
  apply le_antisymm
  · exact nextPow2_le_of_pow2 (by omega) hp2
  · rw [nextPow2, nextPow2]
    exact Nat.pow_le_pow_right (by norm_num)
      (Nat.clog_mono_right 2 (by omega))

lemma nextPow2_one : nextPow2 1 = 1 := by
  rw [nextPow2, Nat.clog_one_right]
  norm_num

lemma padCount_eq : ∀ (fuel n : Nat), 0 < n → nextPow2 n - n ≤ fuel →
    padCount fuel n = nextPow2 n - n
  | 0, n, _, hle => by
    have := le_nextPow2 n
    simp only [padCount]
    omega
  | fuel + 1, n, h0, hle => by
    rw [padCount]
    by_cases hc : 1 < n ∧ n &&& (n - 1) ≠ 0
    · rw [if_pos hc]
      have hnp : ¬ ∃ k, n = 2 ^ k := by
        intro hp
        exact hc.2 ((land_pred_eq_zero_iff h0).mpr hp)
      have hne := nextPow2_succ_of_not_pow2 hc.1 hnp
      have h1 : n ≤ nextPow2 n := le_nextPow2 n
      have h2 : n ≠ nextPow2 n := fun hceq => hnp (hceq ▸ ⟨_, rfl⟩)
      rw [padCount_eq fuel (n + 1) (by omega) (by rw [hne]; omega), hne]
      omega
    · rw [if_neg hc]
      push_neg at hc
      by_cases h1 : 1 < n
      · have hp := (land_pred_eq_zero_iff h0).mp (hc h1)
        have : nextPow2 n = n :=
          le_antisymm (nextPow2_le_of_pow2 le_rfl hp) (le_nextPow2 n)
        omega
      · have hn1 : n = 1 := by omega
        subst hn1
        rw [nextPow2_one]

lemma nextPow2_sub_le {n : Nat} (h0 : 0 < n) : nextPow2 n - n ≤ n := by
  by_cases hn : 1 < n
  · have := nextPow2_le_two_mul hn
    omega
  · have hn1 : n = 1 := by omega
    subst hn1
    rw [nextPow2_one]
    omega

lemma middle_ne {α : Type} (a b c : List α) (x y : α) (hxy : x ≠ y) :
    a ++ (x :: (b ++ (y :: c))) ≠ a ++ (y :: (b ++ (x :: c))) := by
  intro h
  have h1 : x :: (b ++ (y :: c)) = y :: (b ++ (x :: c)) :=
    @List.append_cancel_left _ a _ _ h
  injection h1 with h2 _
  exact hxy h2

lemma computeMerkleRoot_congr {t t' : AuditTrail}
    (h : t.entries = t'.entries) :
    computeMerkleRoot t = computeMerkleRoot t' := by
  rw [computeMerkleRoot, computeMerkleRoot, h]

lemma computeMerkleRootSt_snd (t : AuditTrail) :
    (computeMerkleRootSt t).2 = computeMerkleRoot t := by
  rw [computeMerkleRootSt]
  by_cases he : t.entries.isEmpty
  · rw [if_pos he, computeMerkleRoot, if_pos he]
  · rw [if_neg he]

lemma computeMerkleRootSt_fst_entries (t : AuditTrail) :
    (computeMerkleRootSt t).1.entries = t.entries := by
  rw [computeMerkleRootSt]
  by_cases he : t.entries.isEmpty
  · rw [if_pos he]
  · rw [if_neg he]

lemma computeMerkleRoot_eq_spec (u : AuditTrail) :
    computeMerkleRoot u = merkleRootSpec (u.entries.map AuditEntry.hash) := by
  rw [computeMerkleRoot, merkleRootSpec]
  by_cases he : u.entries.isEmpty
  · rw [if_pos he, if_pos (by simpa using he)]
  · rw [if_neg he, if_neg (by simpa using he)]
    have hlen : (u.entries.map AuditEntry.hash).length = u.entries.length :=
      List.length_map _ _
    have h0 : 0 < u.entries.length := by
      cases hu : u.entries with
      | nil => rw [hu] at he; simp at he
      | cons e es => simp
    rw [padLoop_eq, hlen,
      padCount_eq u.entries.length u.entries.length h0 (nextPow2_sub_le h0)]

lemma merkleRootSpec_inj (H' H : List HashVal) (h0 : 0 < H.length)
    (hlen : H'.length = H.length)
    (heq : merkleRootSpec H' = merkleRootSpec H) : H' = H := by
  have hne : H.isEmpty = false := by
    cases H with
    | nil => simp at h0
    | cons a l => rfl
  have hne' : H'.isEmpty = false := by
    cases H' with
    | nil => rw [List.length_nil] at hlen; omega
    | cons a l => rfl
  rw [merkleRootSpec, merkleRootSpec, if_neg (by simp [hne']),
    if_neg (by simp [hne]), hlen] at heq
  have hPlen :
      (H' ++ List.replicate (nextPow2 H.length - H.length) HashVal.zeroHash).length
        = (H ++ List.replicate (nextPow2 H.length - H.length) HashVal.zeroHash).length := by
    simp [hlen]
  have h1 : (reduceLoop
      (H ++ List.replicate (nextPow2 H.length - H.length) HashVal.zeroHash).length
      (H ++ List.replicate (nextPow2 H.length - H.length) HashVal.zeroHash)).length = 1 := by
    apply reduceLoop_length
    · simp only [List.length_append]
      omega
    · exact le_rfl
  have h1' : (reduceLoop
      (H' ++ List.replicate (nextPow2 H.length - H.length) HashVal.zeroHash).length
      (H' ++ List.replicate (nextPow2 H.length - H.length) HashVal.zeroHash)).length = 1 := by
    apply reduceLoop_length
    · simp only [List.length_append, hlen]
      omega
    · exact le_rfl
  obtain ⟨x, hx⟩ := List.length_eq_one.mp h1
  obtain ⟨x', hx'⟩ := List.length_eq_one.mp h1'
  rw [hx, hx'] at heq
  simp only [List.headD_cons] at heq
  have hPP : H' ++ List.replicate (nextPow2 H.length - H.length) HashVal.zeroHash
      = H ++ List.replicate (nextPow2 H.length - H.length) HashVal.zeroHash := by
    apply reduceLoop_inj
      (H ++ List.replicate (nextPow2 H.length - H.length) HashVal.zeroHash).length
      _ _ hPlen
    rw [hPlen] at hx'
    rw [hx, hx', heq]
  exact List.append_cancel_right hPP

/-- C8: the Merkle root is the zero sentinel for an empty trail; otherwise
it is the spec's bottom-up pairwise reduction of the ordered entry hashes
padded with the zero sentinel to the next power of two; recomputing without
intervening appends (including through the cached-root wrapper) yields the
same root; and swapping two entries with distinct hashes changes the root. -/
theorem audit_merkle_root (t : AuditTrail) :
    (t.entries = [] → computeMerkleRoot t = .zeroHash) ∧
    computeMerkleRoot t = merkleRootSpec (t.entries.map AuditEntry.hash) ∧
    (computeMerkleRootSt t).2 = computeMerkleRoot t ∧
    (computeMerkleRootSt ((computeMerkleRootSt t).1)).2 =
      (computeMerkleRootSt t).2 ∧
    (∀ l1 e1 l2 e2 l3, t.entries = l1 ++ (e1 :: (l2 ++ (e2 :: l3))) →
      e1.hash ≠ e2.hash →
      computeMerkleRoot
          { t with entries := l1 ++ (e2 :: (l2 ++ (e1 :: l3))) } ≠
        computeMerkleRoot t) := by
  refine ⟨?_, computeMerkleRoot_eq_spec t, computeMerkleRootSt_snd t, ?_, ?_⟩
  · intro h
    rw [computeMerkleRoot, if_pos (by simp [h])]
  · rw [computeMerkleRootSt_snd, computeMerkleRootSt_snd]
    exact computeMerkleRoot_congr (computeMerkleRootSt_fst_entries t)
  · intro l1 e1 l2 e2 l3 hsplit hne heq
    have hstep := computeMerkleRoot_eq_spec
      { t with entries := l1 ++ (e2 :: (l2 ++ (e1 :: l3))) }
    rw [show ({ t with entries := l1 ++ (e2 :: (l2 ++ (e1 :: l3))) } :
      AuditTrail).entries = l1 ++ (e2 :: (l2 ++ (e1 :: l3))) from rfl] at hstep
    have htt := computeMerkleRoot_eq_spec t
    have heq' : merkleRootSpec
        ((l1 ++ (e2 :: (l2 ++ (e1 :: l3)))).map AuditEntry.hash)
        = merkleRootSpec (t.entries.map AuditEntry.hash) := by
      rw [← hstep, ← htt]
      exact heq
    have h0 : 0 < (t.entries.map AuditEntry.hash).length := by
      rw [List.length_map, hsplit, List.length_append]
      simp
    have hlen2 : ((l1 ++ (e2 :: (l2 ++ (e1 :: l3)))).map AuditEntry.hash).length
        = (t.entries.map AuditEntry.hash).length := by
      rw [List.length_map, List.length_map, hsplit]
      simp only [List.length_append, List.length_cons]
    have hHH := merkleRootSpec_inj _ _ h0 hlen2 heq'
    rw [hsplit] at hHH
    simp only [List.map_append, List.map_cons] at hHH
    exact middle_ne (l1.map AuditEntry.hash) (l2.map AuditEntry.hash)
      (l3.map AuditEntry.hash) e2.hash e1.hash (fun hc => hne hc.symm) hHH

theorem audit_merkle_root_witness :
    computeMerkleRoot
        { trailW with entries := [] ++ (e1W :: ([] ++ (e0W :: []))) } ≠
      computeMerkleRoot trailW :=
  (audit_merkle_root trailW).2.2.2.2 [] e0W [] e1W [] (by decide) (by decide)

-- ─── Map (setKey / lookup) lemmas ───────────────────────────────────────────

lemma lookup_cons {α : Type} (k k1 : String) (v1 : α)
    (m : List (String × α)) :
    List.lookup k ((k1, v1) :: m) =
      if k = k1 then some v1 else List.lookup k m := by
  rw [List.lookup]
  by_cases h : k = k1
  · rw [if_pos h, beq_iff_eq.mpr h]
  · rw [if_neg h, beq_eq_false_iff_ne.mpr h]

lemma lookup_replace_ne {α : Type} (m : List (String × α)) (k k' : String)
    (v : α) (hne : k' ≠ k) :
    (m.map (fun p => if p.1 = k then (k, v) else p)).lookup k' = m.lookup k' := by
  induction m with
  | nil => rfl
  | cons p m ih =>
    obtain ⟨k1, v1⟩ := p
    by_cases hp : k1 = k
    · subst hp
      rw [List.map_cons, if_pos rfl, lookup_cons, lookup_cons, if_neg hne,
        if_neg hne]
      exact ih
    · rw [List.map_cons, if_neg hp, lookup_cons, lookup_cons]
      by_cases hq : k' = k1
      · rw [if_pos hq, if_pos hq]
      · rw [if_neg hq, if_neg hq]
        exact ih

lemma lookup_replace_self {α : Type} (m : List (String × α)) (k : String)
    (v : α) (hmem : (m.lookup k).isSome) :
    (m.map (fun p => if p.1 = k then (k, v) else p)).lookup k = some v := by
  induction m with
  | nil => simp [List.lookup] at hmem
  | cons p m ih =>
    obtain ⟨k1, v1⟩ := p
    by_cases hp : k1 = k
    · subst hp
      rw [List.map_cons, if_pos rfl, lookup_cons, if_pos rfl]
    · rw [lookup_cons, if_neg (fun hc => hp hc.symm)] at hmem
      rw [List.map_cons, if_neg hp, lookup_cons,
        if_neg (fun hc => hp hc.symm)]
      exact ih hmem

lemma replace_of_lookup_none {α : Type} (m : List (String × α)) (k : String)
    (v : α) (h : m.lookup k = none) :
    m.map (fun p => if p.1 = k then (k, v) else p) = m := by
  induction m with
  | nil => rfl
  | cons p m ih =>
    obtain ⟨k1, v1⟩ := p
    rw [lookup_cons] at h
    by_cases hq : k = k1
    · rw [if_pos hq] at h
      exact absurd h (by simp)
    · rw [if_neg hq] at h
      rw [List.map_cons, if_neg (fun hc => hq hc.symm), ih h]

lemma lookup_append_single {α : Type} (m : List (String × α)) (k k' : String)
    (v : α) (hnone : m.lookup k' = none) :
    (m ++ [(k, v)]).lookup k' = if k' = k then some v else none := by
  induction m with
  | nil =>
    rw [List.nil_append, lookup_cons]
    by_cases hk : k' = k
    · rw [if_pos hk, if_pos hk]
    · rw [if_neg hk, if_neg hk]
      rfl
  | cons p m ih =>
    obtain ⟨k1, v1⟩ := p
    rw [lookup_cons] at hnone
    by_cases hq : k' = k1
    · rw [if_pos hq] at hnone
      exact absurd hnone (by simp)
    · rw [if_neg hq] at hnone
      rw [List.cons_append, lookup_cons, if_neg hq]
      exact ih hnone

lemma lookup_append_single_ne {α : Type} (m : List (String × α))
    (k k' : String) (v : α) (hk : k' ≠ k) :
    (m ++ [(k, v)]).lookup k' = m.lookup k' := by
  induction m with
  | nil =>
    rw [List.nil_append, lookup_cons, if_neg hk]
  | cons p m ih =>
    obtain ⟨k1, v1⟩ := p
    rw [List.cons_append, lookup_cons, lookup_cons]
    by_cases hq : k' = k1
    · rw [if_pos hq, if_pos hq]
    · rw [if_neg hq, if_neg hq]
      exact ih

lemma lookup_setKey {α : Type} (m : List (String × α)) (k k' : String)
    (v : α) :
    (setKey m k v).lookup k' = if k' = k then some v else m.lookup k' := by
  rw [setKey]
  by_cases h : (m.lookup k).isSome
  · rw [if_pos h]
    by_cases hk : k' = k
    · subst hk
      rw [if_pos rfl]
      exact lookup_replace_self m k' v h
    · rw [if_neg hk]
      exact lookup_replace_ne m k k' v hk
  · rw [if_neg h]
    have hnone : m.lookup k = none := by
      cases hm : m.lookup k
      · rfl
      · rw [hm] at h
        simp at h
    by_cases hk : k' = k
    · subst hk
      rw [lookup_append_single m k' k' v hnone, if_pos rfl, if_pos rfl]
    · rw [if_neg hk, lookup_append_single_ne m k k' v hk]

lemma lookup_setKey_self {α : Type} (m : List (String × α)) (k : String)
    (v : α) : (setKey m k v).lookup k = some v := by
  rw [lookup_setKey, if_pos rfl]

lemma setKey_setKey {α : Type} (m : List (String × α)) (k : String)
    (a b : α) : setKey (setKey m k a) k b = setKey m k b := by
  have hsome : ((setKey m k a).lookup k).isSome := by
    rw [lookup_setKey_self]
    rfl
  rw [show setKey (setKey m k a) k b =
      (setKey m k a).map (fun p => if p.1 = k then (k, b) else p) by
    rw [setKey, if_pos hsome]]
  rw [setKey]
  by_cases h : (m.lookup k).isSome
  · rw [if_pos h, setKey, if_pos h, List.map_map]
    apply List.map_congr_left
    intro p _
    by_cases hp : p.1 = k
    · simp [hp]
    · simp [hp]
  · rw [if_neg h, setKey, if_neg h, List.map_append]
    have hnone : m.lookup k = none := by
      cases hm : m.lookup k
      · rfl
      · rw [hm] at h
        simp at h
    rw [replace_of_lookup_none m k b hnone]
    simp

-- ─── State-effect lemmas for startNewRound and processGuess ─────────────────

lemma startNewRound_rounds (s : GameState) (roundId : String)
    (target : List Nat) (salt : String) (baseBuyIn now : Nat) :
    (startNewRound s roundId target salt baseBuyIn now).1.rounds =
      setKey s.rounds roundId
        { id := roundId, target := target, salt := salt
          commitmentHash := .commit target roundId salt
          baseBuyIn := baseBuyIn, currentBuyIn := baseBuyIn
          currentTier := .base, pool := 0, guesses := []
          status := .active, winner := none
          startTimestamp := now, endTimestamp := none } := rfl

lemma startNewRound_nonces (s : GameState) (roundId : String)
    (target : List Nat) (salt : String) (baseBuyIn now : Nat) :
    (startNewRound s roundId target salt baseBuyIn now).1.nonceCounter =
        s.nonceCounter + 1 ∧
      (startNewRound s roundId target salt baseBuyIn now).1.issuedNonces =
        s.issuedNonces ++ [s.nonceCounter] := ⟨rfl, rfl⟩

lemma processGuess_rounds_spec (s : GameState) (roundId player : String)
    (guess : List Nat) (buyInPaid now : Nat) :
    (∃ e, processGuess s roundId player guess buyInPaid now = (s, .error e)) ∨
    (∃ round hint r',
      s.rounds.lookup roundId = some round ∧ round.status = .active ∧
      calculateDistance round.target guess = some hint ∧
      (processGuess s roundId player guess buyInPaid now).1.rounds =
        setKey s.rounds roundId r' ∧
      (hint.isExactMatch = true →
        r'.status = .completed ∧ r'.winner = some player) ∧
      (hint.isExactMatch = false →
        r'.status = .active ∧ r'.winner = round.winner)) := by
  rcases hlook : s.rounds.lookup roundId with _ | round
  · exact .inl ⟨.roundNotFound, by simp [processGuess, hlook]⟩
  · by_cases hs : round.status = .active
    · by_cases hb : buyInPaid < round.currentBuyIn
      · exact .inl ⟨.insufficientBuyIn, by simp [processGuess, hlook, hs, hb]⟩
      · rcases hcd : calculateDistance round.target guess with _ | hint
        · exact .inl ⟨.invalidGuessFormat,
            by simp [processGuess, hlook, hs, hb, hcd]⟩
        · by_cases hesc :
              shouldUpdatePrice round.currentTier hint.numericDistance
          · by_cases hwin : hint.isExactMatch
            · refine .inr ⟨round,
                hint,
                { round with
                    guesses := round.guesses ++
                      [⟨player, guess, hint, buyInPaid, now⟩]
                    pool := round.pool + buyInPaid
                    currentTier := determinePriceTier hint.numericDistance
                    currentBuyIn := computeBuyIn hint.numericDistance
                    status := .completed
                    winner := some player
                    endTimestamp := some now },
                rfl, hs, hcd, ?_, fun _ => ⟨rfl, rfl⟩,
                fun hc => by simp [hwin] at hc⟩
              simp [processGuess, hlook, hs, hb, hcd, hesc, hwin, addAudit,
                getNextNonce, setKey_setKey]
            · refine .inr ⟨round,
                hint,
                { round with
                    guesses := round.guesses ++
                      [⟨player, guess, hint, buyInPaid, now⟩]
                    pool := round.pool + buyInPaid
                    currentTier := determinePriceTier hint.numericDistance
                    currentBuyIn := computeBuyIn hint.numericDistance },
                rfl, hs, hcd, ?_, fun hc => absurd hc hwin,
                fun _ => ⟨hs, rfl⟩⟩
              simp [processGuess, hlook, hs, hb, hcd, hesc, hwin, addAudit,
                getNextNonce, setKey_setKey]
          · by_cases hwin : hint.isExactMatch
            · refine .inr ⟨round,
                hint,
                { round with
                    guesses := round.guesses ++
                      [⟨player, guess, hint, buyInPaid, now⟩]
                    pool := round.pool + buyInPaid
                    status := .completed
                    winner := some player
                    endTimestamp := some now },
                rfl, hs, hcd, ?_, fun _ => ⟨rfl, rfl⟩,
                fun hc => by simp [hwin] at hc⟩
              simp [processGuess, hlook, hs, hb, hcd, hesc, hwin, addAudit,
                getNextNonce, setKey_setKey]
            · refine .inr ⟨round,
                hint,
                { round with
                    guesses := round.guesses ++
                      [⟨player, guess, hint, buyInPaid, now⟩]
                    pool := round.pool + buyInPaid },
                rfl, hs, hcd, ?_, fun hc => absurd hc hwin,
                fun _ => ⟨hs, rfl⟩⟩
              simp [processGuess, hlook, hs, hb, hcd, hesc, hwin, addAudit,
                getNextNonce, setKey_setKey]
    · exact .inl ⟨.roundNotActive, by simp [processGuess, hlook, hs]⟩

lemma processGuess_nonce_effect (s : GameState) (roundId player : String)
    (guess : List Nat) (buyInPaid now : Nat) :
    ∃ k, (processGuess s roundId player guess buyInPaid now).1.nonceCounter =
        s.nonceCounter + k ∧
      (processGuess s roundId player guess buyInPaid now).1.issuedNonces =
        s.issuedNonces ++ List.range' s.nonceCounter k := by
  rcases hlook : s.rounds.lookup roundId with _ | round
  · exact ⟨0, by simp [processGuess, hlook], by simp [processGuess, hlook]⟩
  · by_cases hs : round.status = .active
    · by_cases hb : buyInPaid < round.currentBuyIn
      · exact ⟨0, by simp [processGuess, hlook, hs, hb],
          by simp [processGuess, hlook, hs, hb]⟩
      · rcases hcd : calculateDistance round.target guess with _ | hint
        · exact ⟨0, by simp [processGuess, hlook, hs, hb, hcd],
            by simp [processGuess, hlook, hs, hb, hcd]⟩
        · by_cases hesc :
              shouldUpdatePrice round.currentTier hint.numericDistance
          · by_cases hwin : hint.isExactMatch
            · exact ⟨3,
                by simp [processGuess, hlook, hs, hb, hcd, hesc, hwin,
                  addAudit, getNextNonce],
                by simp [processGuess, hlook, hs, hb, hcd, hesc, hwin,
                  addAudit, getNextNonce, List.range']⟩
            · exact ⟨2,
                by simp [processGuess, hlook, hs, hb, hcd, hesc, hwin,
                  addAudit, getNextNonce],
                by simp [processGuess, hlook, hs, hb, hcd, hesc, hwin,
                  addAudit, getNextNonce, List.range']⟩
          · by_cases hwin : hint.isExactMatch
            · exact ⟨2,
                by simp [processGuess, hlook, hs, hb, hcd, hesc, hwin,
                  addAudit, getNextNonce],
                by simp [processGuess, hlook, hs, hb, hcd, hesc, hwin,
                  addAudit, getNextNonce, List.range']⟩
            · exact ⟨1,
                by simp [processGuess, hlook, hs, hb, hcd, hesc, hwin,
                  addAudit, getNextNonce],
                by simp [processGuess, hlook, hs, hb, hcd, hesc, hwin,
                  addAudit, getNextNonce, List.range']⟩
    · exact ⟨0, by simp [processGuess, hlook, hs],
        by simp [processGuess, hlook, hs]⟩

-- ─── Round lifecycle invariant (C6) ─────────────────────────────────────────

/-- C6: in every reachable engine state, a round's `winner` is set exactly
when its status is Completed; a guess against a Completed round fails with
RoundNotActive and leaves the state unchanged; and no engine operation ever
modifies a Completed round (so a round transitions to Completed at most
once). -/
theorem round_completion_invariant : ∀ s, Reachable s →
    (∀ rid r, s.rounds.lookup rid = some r →
      (r.winner.isSome = true ↔ r.status = .completed)) ∧
    (∀ rid r p g b now, s.rounds.lookup rid = some r →
      r.status = .completed →
      processGuess s rid p g b now = (s, .error .roundNotActive)) ∧
    (∀ s', Step s s' → ∀ rid r, s.rounds.lookup rid = some r →
      r.status = .completed → s'.rounds.lookup rid = some r) := by
  have key : ∀ s, Reachable s → ∀ rid r, s.rounds.lookup rid = some r →
      (r.winner.isSome = true ↔ r.status = .completed) := by
    intro s hs
    induction hs with
    | refl =>
      intro rid r h
      simp [initState, List.lookup] at h
    | tail hsteps hstep ih =>
      cases hstep with
      | start rid2 tgt salt bb now hfresh =>
        intro rid' r' hl
        rw [startNewRound_rounds, lookup_setKey] at hl
        by_cases hk : rid' = rid2
        · rw [if_pos hk] at hl
          injection hl with hl
          subst hl
          simp
        · rw [if_neg hk] at hl
          exact ih rid' r' hl
      | doGuess rid2 p g b now =>
        rename_i s2
        intro rid' r' hl
        rcases processGuess_rounds_spec s2 rid2 p g b now with
          ⟨e, he⟩ | ⟨round, hint, rr, hlook, hact, _, hrounds, hwin1, hwin0⟩
        · rw [he] at hl
          exact ih rid' r' hl
        · rw [hrounds, lookup_setKey] at hl
          by_cases hk : rid' = rid2
          · rw [if_pos hk] at hl
            injection hl with hl
            subst hl
            by_cases hw : hint.isExactMatch
            · obtain ⟨hst, hwn⟩ := hwin1 hw
              rw [hst, hwn]
              simp
            · obtain ⟨hst, hwn⟩ := hwin0 (Bool.eq_false_iff.mpr hw)
              rw [hst, hwn]
              have hiff := ih rid2 round (hk ▸ hlook)
              rw [hact] at hiff
              exact hiff
          · rw [if_neg hk] at hl
            exact ih rid' r' hl
  intro s hs
  refine ⟨key s hs, ?_, ?_⟩
  · intro rid r p g b now hl hc
    have hact : r.status ≠ .active := by
      rw [hc]
      simp
    simp [processGuess, hl, hact]
  · intro s' hstep rid r hl hcomp
    cases hstep with
    | start rid2 tgt salt bb now hfresh =>
      rw [startNewRound_rounds, lookup_setKey]
      have hk : rid ≠ rid2 := by
        intro hc
        subst hc
        rw [hfresh] at hl
        exact Option.noConfusion hl
      rw [if_neg hk]
      exact hl
    | doGuess rid2 p g b now =>
      rcases processGuess_rounds_spec s rid2 p g b now with
        ⟨e, he⟩ | ⟨round, hint, rr, hlook, hact, _, hrounds, _, _⟩
      · rw [he]
        exact hl
      · rw [hrounds, lookup_setKey]
        by_cases hk : rid = rid2
        · subst hk
          rw [hl] at hlook
          injection hlook with hlk
          rw [← hlk, hcomp] at hact
          exact absurd hact (by simp)
        · rw [if_neg hk]
          exact hl

theorem round_completion_invariant_witness :
    processGuess witDone "w1" "p2" (List.replicate 12 7) 10000000000000000 2 =
      (witDone, .error .roundNotActive) := by
  have hreach : Reachable witDone :=
    Relation.ReflTransGen.tail
      (Relation.ReflTransGen.single
        (Step.start initState "w1" (List.replicate 12 7) "ws"
          10000000000000000 0 rfl))
      (Step.doGuess witStart "w1" "p1" (List.replicate 12 7)
        10000000000000000 1)
  exact (round_completion_invariant witDone hreach).2.1 "w1" _ "p2"
    (List.replicate 12 7) 10000000000000000 2 rfl rfl

-- ─── Nonce discipline (C9) ──────────────────────────────────────────────────

/-- C9: in every reachable engine state, the history of issued nonces is
exactly `0, 1, …, nonceCounter − 1`: a single process-wide counter shared by
all rounds and message kinds, strictly increasing, gap-free, never
repeating; and every engine operation only appends to the issuance
history. -/
theorem nonce_monotonic : ∀ s, Reachable s →
    s.issuedNonces = List.range s.nonceCounter ∧
    List.Chain' (· < ·) s.issuedNonces ∧
    s.issuedNonces.Nodup ∧
    (∀ s', Step s s' → ∃ l, s'.issuedNonces = s.issuedNonces ++ l) := by
  have hinv : ∀ s, Reachable s →
      s.issuedNonces = List.range s.nonceCounter := by
    intro s hs
    induction hs with
    | refl => rfl
    | tail hsteps hstep ih =>
      cases hstep with
      | start rid tgt salt bb now hfresh =>
        rename_i s2
        rw [(startNewRound_nonces s2 rid tgt salt bb now).2,
          (startNewRound_nonces s2 rid tgt salt bb now).1, ih,
          List.range_succ]
      | doGuess rid p g b now =>
        rename_i s2
        obtain ⟨k, hc, hi⟩ := processGuess_nonce_effect s2 rid p g b now
        rw [hi, hc, ih, List.range_eq_range', List.range_eq_range']
        have h := List.range'_append 0 s2.nonceCounter k 1
        simp only [Nat.zero_add, Nat.one_mul] at h
        rw [h, Nat.add_comm]
  intro s hs
  refine ⟨hinv s hs, ?_, ?_, ?_⟩
  · rw [hinv s hs]
    exact (List.pairwise_lt_range _).chain'
  · rw [hinv s hs]
    exact List.nodup_range _
  · intro s' hstep
    cases hstep with
    | start rid tgt salt bb now hfresh =>
      exact ⟨[s.nonceCounter],
        (startNewRound_nonces s rid tgt salt bb now).2⟩
    | doGuess rid p g b now =>
      obtain ⟨k, _, hi⟩ := processGuess_nonce_effect s rid p g b now
      exact ⟨_, hi⟩

theorem nonce_monotonic_witness :
    witStart.issuedNonces = List.range witStart.nonceCounter ∧
    witStart.issuedNonces.Nodup := by
  have h := nonce_monotonic witStart
    (Relation.ReflTransGen.single
      (Step.start initState "w1" (List.replicate 12 7) "ws"
        10000000000000000 0 rfl))
  exact ⟨h.1, h.2.2.1⟩

-- ─── Witnesses for the scoring theorems ─────────────────────────────────────

theorem calculateDistance_bulls_cows_witness :
    ∃ h, calculateDistance [1, 2, 3, 4, 5, 6, 7, 8, 9, 0, 1, 2]
        [2, 1, 0, 0, 0, 0, 0, 0, 0, 0, 0, 0] = some h ∧
      h.digitsInPlace + h.digitsCorrect ≤ 12 := by
  obtain ⟨h, h1, h2, _⟩ := calculateDistance_bulls_cows
    [1, 2, 3, 4, 5, 6, 7, 8, 9, 0, 1, 2] [2, 1, 0, 0, 0, 0, 0, 0, 0, 0, 0, 0]
    (by decide) (by decide)
  exact ⟨h, h1, h2⟩

theorem calculateDistance_numericDistance_witness :
    ∃ h h', calculateDistance (List.replicate 12 0) (List.replicate 12 9) =
        some h ∧
      calculateDistance (List.replicate 12 9) (List.replicate 12 0) = some h' ∧
      h.numericDistance ≤ 999999999999 := by
  obtain ⟨h, h', h1, h2, _, _, _, h6, _⟩ := calculateDistance_numericDistance
    (List.replicate 12 0) (List.replicate 12 9) (by decide) (by decide)
    (by decide) (by decide)
  exact ⟨h, h', h1, h2, h6⟩

theorem calculateDistance_symm_witness :
    ∃ h h', calculateDistance [1, 2, 3, 4, 5, 6, 7, 8, 9, 0, 1, 2]
        [2, 1, 0, 0, 0, 0, 0, 0, 0, 0, 0, 0] = some h ∧
      calculateDistance [2, 1, 0, 0, 0, 0, 0, 0, 0, 0, 0, 0]
        [1, 2, 3, 4, 5, 6, 7, 8, 9, 0, 1, 2] = some h' ∧
      h'.digitsCorrect = h.digitsCorrect := by
  obtain ⟨h, h', h1, h2, _, h4⟩ := calculateDistance_symm
    [1, 2, 3, 4, 5, 6, 7, 8, 9, 0, 1, 2] [2, 1, 0, 0, 0, 0, 0, 0, 0, 0, 0, 0]
    (by decide) (by decide)
  exact ⟨h, h', h1, h2, h4⟩

end HotCold
